import Mathlib

/-!
Verification of the transaction-execution core of the Uniswap backend
service (`src/backend/uniswap-backend.py`).

The Python functions are shallowly embedded as pure Lean functions.
Machine integers are modelled as `Nat`/`Int` (Python integers are
unbounded, so no wrap-around is needed).  Calls to the chain node
(`web3`) are modelled by an explicit oracle record `ChainOracle` whose
fields hold the responses the node would give during one request;
a field of type `Option _` uses `none` for the call raising an
exception.  Python dictionaries are modelled as association lists with
first-match lookup.  Python floor division `//` is `Int.fdiv`;
`int(x / y)` on nonnegative exact values is truncated division.
-/

/-- The structured content of the `data` field of a built transaction,
one constructor per router function used by the service.  Field order
follows the argument order of the Python call sites. -/
inductive CallDataCore where
  | v2swap (supportFeeOnTransfer : Bool) (amountIn : Int) (amountOutMin : Int)
      (path : List (List Nat)) (toAddr : List Nat) (deadline : Int)
  | v3single (tokenIn tokenOut : List Nat) (fee : Int) (recipient : List Nat)
      (deadline : Int) (amountIn : Int) (amountOutMin : Int) (sqrtPriceLimitX96 : Int)
deriving DecidableEq

/-- A value stored in a transaction dictionary: a number, an address,
or the ABI-encoded calldata of a router function. -/
inductive TxVal where
  | num (n : Int)
  | addrV (bytes : List Nat)
  | call (data : CallDataCore)
deriving DecidableEq

/-- A transaction dictionary: an association list from string keys to
values, first match wins, insertion at the end (Python dict order). -/
abbrev Tx : Type := List (String × TxVal)

/-- Lookup of a key in a transaction dictionary (first match). -/
def dictGet (k : String) : Tx → Option TxVal
  | [] => none
  | (k1, v) :: rest => if k1 = k then some v else dictGet k rest

/-- Python `dict.setdefault`: keep the stored value if the key is
present, otherwise append the key with the given default value. -/
def dictSetdefault (tx : Tx) (k : String) (v : TxVal) : Tx :=
  match dictGet k tx with
  | some _ => tx
  | none => tx ++ [(k, v)]

/-- An address argument as received from a request body: either a
string that `Web3.to_checksum_address` accepts, carrying its 20 raw
bytes, or a string it rejects.  The hex/checksum validation itself is
library code external to the repository and is abstracted into this
validity tag. -/
inductive AddrInput where
  | valid (bytes : List Nat)
  | invalid
deriving DecidableEq

/-- Result of `w3.eth.fee_history`: the per-block base fees and the
optional per-block reward (priority fee) samples. -/
structure FeeHist where
  baseFeePerGas : List Nat
  reward : Option (List (List Nat))
deriving DecidableEq

/-- The two possible submission targets of `send_signed`. -/
inductive Endpoint where
  | primary
  | relay
deriving DecidableEq

/-- Responses of the chain node(s) during one request, plus the relay
configuration.  `none` in an `Option` field models the corresponding
RPC call raising an exception. -/
structure ChainOracle where
  feeHistory : Option FeeHist
  gasPrice : Nat
  txCount : Nat
  gasEstimate : Option Nat
  v2Amounts : Option (List Nat)
  v3QuoteSingle : Option Nat
  privateRpcConfigured : Bool
  relayInitOk : Bool
  sendResult : Endpoint → Option (List Nat)

/-- Static service configuration: chain id, signer address and the
optional default recipient. -/
structure Cfg where
  chainId : Int
  acctAddr : List Nat
  defaultRecipient : Option AddrInput

/-- One gwei in wei, the value of `w3.to_wei(1, 'gwei')`. -/
def gwei1 : Nat := 1000000000

/-- The first element of every inner list, or `none` if some inner
list is empty (in which case Python's `r[0]` raises `IndexError`). -/
def listHeads : List (List Nat) → Option (List Nat)
  | [] => some []
  | [] :: _ => none
  | (x :: _) :: rest => (listHeads rest).map (fun t => x :: t)

/-- Embedding of `suggest_fees` (lines 239-250).  Reads a 5-block fee
history; the tip is the truncated mean of the first reward sample of
each block, or 1 gwei when there are no reward samples; the max fee is
the latest base fee plus twice the tip.  Any exception inside the
`try` block (fee history unavailable, empty base-fee list, a block
with an empty reward list) falls through to the `(gas_price, 1 gwei)`
fallback. -/
def suggest_fees (o : ChainOracle) : Nat × Nat :=
  match o.feeHistory with
  | none => (o.gasPrice, gwei1)
  | some hist =>
    match hist.baseFeePerGas.getLast? with
    | none => (o.gasPrice, gwei1)
    | some base =>
      match hist.reward.getD [] with
      | [] => (base + gwei1 * 2, gwei1)
      | r :: rs =>
        match listHeads (r :: rs) with
        | none => (o.gasPrice, gwei1)
        | some firsts =>
          let tip := firsts.sum / (r :: rs).length
          (base + tip * 2, tip)

/-- Embedding of `with_fees_and_nonce` (lines 252-259): five
`setdefault` calls filling `chainId`, `nonce` (the chain's current
transaction count for the signer), `type`, `maxFeePerGas` and
`maxPriorityFeePerGas`. -/
def with_fees_and_nonce (cfg : Cfg) (o : ChainOracle) (tx : Tx) : Tx :=
  let ft := suggest_fees o
  let tx1 := dictSetdefault tx "chainId" (.num cfg.chainId)
  let tx2 := dictSetdefault tx1 "nonce" (.num o.txCount)
  let tx3 := dictSetdefault tx2 "type" (.num 2)
  let tx4 := dictSetdefault tx3 "maxFeePerGas" (.num ft.1)
  dictSetdefault tx4 "maxPriorityFeePerGas" (.num ft.2)

/-- Embedding of `estimate_and_fill_gas` (lines 261-267): on a
successful estimate, `setdefault` the `gas` field to the estimate
scaled by `12 // 10`; on an estimation exception, return the
transaction unchanged. -/
def estimate_and_fill_gas (o : ChainOracle) (tx : Tx) : Tx :=
  match o.gasEstimate with
  | none => tx
  | some g => dictSetdefault tx "gas" (.num ((g * 12) / 10 : Nat))

/-- The provider chosen by `send_signed` (lines 269-279): the relay
when a private RPC URL is configured and its provider constructor
succeeds; the primary `w3` otherwise (including when the relay
provider constructor raises, which is caught and only logged). -/
def send_target (o : ChainOracle) : Endpoint :=
  if o.privateRpcConfigured then
    (if o.relayInitOk then .relay else .primary)
  else .primary

/-- Errors surfaced by the embedded request pipeline.  The Python code
raises library exceptions; only their occurrence and origin matter
here. -/
inductive SwapErr where
  | badAddress
  | quoteFailed
  | indexErr
  | sendFailed
deriving DecidableEq

/-- Embedding of `send_signed` (lines 269-279): sign (pure, always
succeeds given the configured key) and submit the raw transaction to
the single chosen endpoint, returning the transaction hash bytes. -/
def send_signed (o : ChainOracle) (_tx : Tx) : Except SwapErr (List Nat) :=
  match o.sendResult (send_target o) with
  | some h => .ok h
  | none => .error .sendFailed

/-- The nonce field of the i-th transaction built by one process, when
each build starts from a fresh dictionary without a caller-supplied
nonce: the process keeps no allocation state between builds, so build
i simply reads the chain state `chain i` current at that moment. -/
def build_sequence_nonce (cfg : Cfg) (chain : Nat → ChainOracle) (i : Nat) : Option TxVal :=
  dictGet "nonce" (with_fees_and_nonce cfg (chain i) [])

/-- Errors of the path encoder: the explicit `ValueError` on a length
mismatch, the checksum-validation exception on a bad address, and the
`OverflowError` of `int.to_bytes(3, 'big')` on a fee outside
`[0, 2^24)`. -/
inductive PathErr where
  | lengthMismatch
  | invalidAddress
  | feeOverflow
deriving DecidableEq

/-- Python `int(f).to_bytes(3, 'big')`: the three big-endian bytes of
a fee tier, raising `OverflowError` when the value does not fit in
three unsigned bytes. -/
def to_bytes_3_be (f : Int) : Except PathErr (List Nat) :=
  if 0 ≤ f ∧ f < 16777216 then
    .ok [f.toNat / 65536, f.toNat / 256 % 256, f.toNat % 256]
  else .error .feeOverflow

/-- `Web3.to_bytes(hexstr=Web3.to_checksum_address(t))`: the raw bytes
of a token argument when it validates, an exception otherwise. -/
def checksum_bytes : AddrInput → Except PathErr (List Nat)
  | .valid b => .ok b
  | .invalid => .error .invalidAddress

/-- The loop body plus final append of `encode_v3_path` (lines
285-290), under the already-checked invariant that there is exactly
one more token than fees: each fee tier is preceded by its token's
bytes, and the last token's bytes close the path.  The catch-all case
is unreachable once the length guard has passed. -/
def encode_path_core : List AddrInput → List Int → Except PathErr (List Nat)
  | [t], [] => checksum_bytes t
  | t :: ts, f :: fs =>
    match checksum_bytes t with
    | .error e => .error e
    | .ok tb =>
      match to_bytes_3_be f with
      | .error e => .error e
      | .ok fb =>
        match encode_path_core ts fs with
        | .error e => .error e
        | .ok rest => .ok (tb ++ fb ++ rest)
  | _, _ => .error .lengthMismatch

/-- Embedding of `encode_v3_path` (lines 282-290).  The only explicit
validation is the `ValueError` when the number of fees differs from
the number of tokens minus one; the subtraction is over ℤ because
Python evaluates `len(tokens) - 1` to `-1` on an empty token list. -/
def encode_v3_path (tokens : List AddrInput) (fees : List Int) : Except PathErr (List Nat) :=
  if (fees.length : Int) = (tokens.length : Int) - 1 then
    encode_path_core tokens fees
  else .error .lengthMismatch

/-- The byte layout the specification prescribes for a multi-hop path:
each token's 20 raw bytes followed by its fee tier as a 3-byte
big-endian integer, terminated by the final token's raw bytes.  This
definition follows the specification's words and is compared with the
source-derived `encode_v3_path` in the round-trip claim. -/
def spec_path_layout : List (List Nat) → List Int → List Nat
  | [], _ => []
  | [b], _ => b
  | b :: bs, [] => b ++ spec_path_layout bs []
  | b :: bs, f :: fs => b ++ [f.toNat / 65536, f.toNat / 256 % 256, f.toNat % 256] ++ spec_path_layout bs fs

/-- State of the process-local rate limiter `_rate_cache`: a
dictionary keyed by (identity, window index) holding a request count,
modelled like `Tx` as a first-match association list. -/
abbrev RateCache : Type := List ((String × Nat) × Nat)

/-- Lookup in the rate cache (first match). -/
def rateGet (k : String × Nat) : RateCache → Option Nat
  | [] => none
  | (k1, v) :: rest => if k1 = k then some v else rateGet k rest

/-- Python dictionary assignment `d[k] = v`: replace the first match
in place, or append when the key is absent. -/
def rateSet (k : String × Nat) (v : Nat) : RateCache → RateCache
  | [] => [(k, v)]
  | (k1, v1) :: rest => if k1 = k then (k, v) :: rest else (k1, v1) :: rateSet k v rest

/-- Embedding of the local limiter of `rate_limit_dep` (lines
349-358), the path taken when no shared rate table is configured: the
count stored under (identity, current window) is incremented, entries
of other windows are garbage collected, and the request is rejected
with HTTP 429 exactly when the incremented count exceeds the limit.
Returns the updated cache and `true` when the request is rejected. -/
def rate_limit_step (limit windowSecs : Nat) (cache : RateCache) (ident : String)
    (now : Nat) : RateCache × Bool :=
  let window := now / windowSecs
  let key := (ident, window)
  let cnt := (rateGet key cache).getD 0 + 1
  let cache1 := rateSet key cnt cache
  let cache2 := cache1.filter (fun kv => kv.1.2 = window)
  (cache2, decide (cnt > limit))

/-- A whole sequence of requests through the local limiter, returning
the final cache and the list of rejection flags in request order. -/
def rate_limit_run (limit windowSecs : Nat) (cache : RateCache) (ident : String) :
    List Nat → RateCache × List Bool
  | [] => (cache, [])
  | t :: ts =>
    let st := rate_limit_step limit windowSecs cache ident t
    let rest := rate_limit_run limit windowSecs st.1 ident ts
    (rest.1, st.2 :: rest.2)

/-- Request body of `POST /v2/swap` (`SwapV2Body`, lines 677-684).
String-integer fields are modelled already parsed; `amount_out_min` is
`none` when the caller lets the service quote. -/
structure SwapV2Req where
  amount_in : Int
  amount_out_min : Option Int
  path : List AddrInput
  toField : Option AddrInput
  deadline : Option Int
  slippage_bps : Int
  support_fee_on_transfer : Bool

/-- Request body of `POST /v3/swap` (`SwapV3Body`, lines 693-702). -/
structure SwapV3Req where
  token_in : AddrInput
  token_out : AddrInput
  fee : Int
  amount_in : Int
  amount_out_min : Option Int
  recipient : Option AddrInput
  deadline : Option Int
  sqrt_price_limit_x96 : Int
  slippage_bps : Int

/-- Checksum validation of a single request address, surfacing the
pipeline-level error. -/
def addr_bytes_req : AddrInput → Except SwapErr (List Nat)
  | .valid b => .ok b
  | .invalid => .error .badAddress

/-- Checksum validation of every address of a path, as in the Python
list comprehensions over `body.path`. -/
def path_bytes_req : List AddrInput → Except SwapErr (List (List Nat))
  | [] => .ok []
  | a :: rest => do
    let b ← addr_bytes_req a
    let bs ← path_bytes_req rest
    pure (b :: bs)

/-- Python `x or y or z` over optional request addresses followed by
the signer's own address, as in `body.to or DEFAULT_RECIPIENT or
acct.address`. -/
def fallback_addr (first : Option AddrInput) (cfg : Cfg) : AddrInput :=
  match first with
  | some a => a
  | none =>
    match cfg.defaultRecipient with
    | some a => a
    | none => .valid cfg.acctAddr

/-- Python `body.deadline or now_plus(300)`: the default applies both
when the field is absent and when it is the falsy value 0. -/
def deadline_or_default (d : Option Int) (now : Nat) : Int :=
  match d with
  | none => (now : Int) + 300
  | some v => if v = 0 then (now : Int) + 300 else v

/-- Lines 434-438 of `v2_swap`: the caller-supplied minimum output is
used verbatim; otherwise the route is quoted through `getAmountsOut`
and the minimum is the quoted final output scaled down by the
slippage tolerance with Python floor division. -/
def v2_amount_out_min (o : ChainOracle) (body : SwapV2Req) : Except SwapErr Int :=
  match body.amount_out_min with
  | some m => .ok m
  | none =>
    match o.v2Amounts with
    | none => .error .quoteFailed
    | some amts =>
      match amts.getLast? with
      | none => .error .indexErr
      | some q => .ok (((q : Int) * (10000 - body.slippage_bps)).fdiv 10000)

/-- Lines 477-486 of `v3_swap`: same minimum-output computation with
the single-hop quoter. -/
def v3_amount_out_min (o : ChainOracle) (body : SwapV3Req) : Except SwapErr Int :=
  match body.amount_out_min with
  | some m => .ok m
  | none =>
    match o.v3QuoteSingle with
    | none => .error .quoteFailed
    | some q => .ok (((q : Int) * (10000 - body.slippage_bps)).fdiv 10000)

/-- Embedding of the transaction-building part of `v2_swap` (lines
427-451): resolve the recipient, default the deadline, compute the
minimum output, assemble the router call and run it through
`with_fees_and_nonce` and `estimate_and_fill_gas`.  No validation of
the deadline, the input amount or the route shape is performed. -/
def v2_swap_tx (cfg : Cfg) (o : ChainOracle) (now : Nat) (body : SwapV2Req) :
    Except SwapErr Tx :=
  match addr_bytes_req (fallback_addr body.toField cfg) with
  | .error e => .error e
  | .ok toA =>
    let deadline := deadline_or_default body.deadline now
    match path_bytes_req body.path with
    | .error e => .error e
    | .ok pathB =>
      match v2_amount_out_min o body with
      | .error e => .error e
      | .ok aom =>
        let data := CallDataCore.v2swap body.support_fee_on_transfer body.amount_in
          aom pathB toA deadline
        .ok (estimate_and_fill_gas o (with_fees_and_nonce cfg o
          [("from", TxVal.addrV cfg.acctAddr), ("data", TxVal.call data)]))

/-- Embedding of `v2_swap` end to end: build, then sign and submit. -/
def v2_swap (cfg : Cfg) (o : ChainOracle) (now : Nat) (body : SwapV2Req) :
    Except SwapErr (List Nat) :=
  match v2_swap_tx cfg o now body with
  | .error e => .error e
  | .ok tx => send_signed o tx

/-- Embedding of the transaction-building part of `v3_swap` (lines
472-503): compute the minimum output, assemble the `exactInputSingle`
parameter tuple in source order, and fill fees, nonce and gas.  As in
`v2_swap`, no intent validation is performed. -/
def v3_swap_tx (cfg : Cfg) (o : ChainOracle) (now : Nat) (body : SwapV3Req) :
    Except SwapErr Tx :=
  match addr_bytes_req body.token_in with
  | .error e => .error e
  | .ok tin =>
    match addr_bytes_req body.token_out with
    | .error e => .error e
    | .ok tout =>
      match v3_amount_out_min o body with
      | .error e => .error e
      | .ok aom =>
        match addr_bytes_req (fallback_addr body.recipient cfg) with
        | .error e => .error e
        | .ok recA =>
          let deadline := deadline_or_default body.deadline now
          let data := CallDataCore.v3single tin tout body.fee recA deadline
            body.amount_in aom body.sqrt_price_limit_x96
          .ok (estimate_and_fill_gas o (with_fees_and_nonce cfg o
            [("from", TxVal.addrV cfg.acctAddr), ("data", TxVal.call data)]))

/-- Embedding of `v3_swap` end to end: build, then sign and submit. -/
def v3_swap (cfg : Cfg) (o : ChainOracle) (now : Nat) (body : SwapV3Req) :
    Except SwapErr (List Nat) :=
  match v3_swap_tx cfg o now body with
  | .error e => .error e
  | .ok tx => send_signed o tx

/-- The minimum-output amount recorded in a built transaction's
calldata. -/
def tx_amount_out_min (tx : Tx) : Option Int :=
  match dictGet "data" tx with
  | some (.call (.v2swap _ _ m _ _ _)) => some m
  | some (.call (.v3single _ _ _ _ _ _ m _)) => some m
  | _ => none

/-- The deadline recorded in a built transaction's calldata. -/
def tx_deadline (tx : Tx) : Option Int :=
  match dictGet "data" tx with
  | some (.call (.v2swap _ _ _ _ _ d)) => some d
  | some (.call (.v3single _ _ _ _ d _ _ _)) => some d
  | _ => none

/-- The input amount recorded in a built transaction's calldata. -/
def tx_amount_in (tx : Tx) : Option Int :=
  match dictGet "data" tx with
  | some (.call (.v2swap _ a _ _ _ _)) => some a
  | some (.call (.v3single _ _ _ _ _ a _ _)) => some a
  | _ => none

theorem dictGet_append (k : String) (l1 l2 : Tx) :
    dictGet k (l1 ++ l2) = ((dictGet k l1).or (dictGet k l2)) := by
  induction l1 with
  | nil => simp [dictGet]
  | cons hd tl ih =>
    obtain ⟨k1, v1⟩ := hd
    by_cases h : k1 = k
    · simp [dictGet, h]
    · simp [dictGet, h, ih]

theorem dictGet_setdefault_of_some (tx : Tx) (k k1 : String) (v v1 : TxVal)
    (h : dictGet k tx = some v) :
    dictGet k (dictSetdefault tx k1 v1) = some v := by
  unfold dictSetdefault
  cases h1 : dictGet k1 tx with
  | some w => exact h
  | none => rw [dictGet_append, h]; rfl

theorem dictGet_setdefault_ne (tx : Tx) (k k1 : String) (v1 : TxVal) (h : k ≠ k1) :
    dictGet k (dictSetdefault tx k1 v1) = dictGet k tx := by
  unfold dictSetdefault
  cases h1 : dictGet k1 tx with
  | some w => rfl
  | none =>
    rw [dictGet_append]
    have h2 : dictGet k [(k1, v1)] = none := by
      simp only [dictGet]
      rw [if_neg (Ne.symm h)]
    rw [h2]
    cases dictGet k tx <;> rfl

theorem dictGet_setdefault_none (tx : Tx) (k : String) (v : TxVal)
    (h : dictGet k tx = none) :
    dictGet k (dictSetdefault tx k v) = some v := by
  unfold dictSetdefault
  rw [h, dictGet_append, h]
  simp [dictGet]

theorem setdefault_of_some (tx : Tx) (k : String) (v v1 : TxVal)
    (h : dictGet k tx = some v) :
    dictSetdefault tx k v1 = tx := by
  unfold dictSetdefault
  rw [h]

theorem wfan_dictGet_other (cfg : Cfg) (o : ChainOracle) (tx : Tx) (k : String)
    (h1 : k ≠ "chainId") (h2 : k ≠ "nonce") (h3 : k ≠ "type")
    (h4 : k ≠ "maxFeePerGas") (h5 : k ≠ "maxPriorityFeePerGas") :
    dictGet k (with_fees_and_nonce cfg o tx) = dictGet k tx := by
  unfold with_fees_and_nonce
  rw [dictGet_setdefault_ne _ _ _ _ h5, dictGet_setdefault_ne _ _ _ _ h4,
    dictGet_setdefault_ne _ _ _ _ h3, dictGet_setdefault_ne _ _ _ _ h2,
    dictGet_setdefault_ne _ _ _ _ h1]

theorem eafg_dictGet_other (o : ChainOracle) (tx : Tx) (k : String) (h : k ≠ "gas") :
    dictGet k (estimate_and_fill_gas o tx) = dictGet k tx := by
  unfold estimate_and_fill_gas
  cases o.gasEstimate with
  | none => rfl
  | some g => exact dictGet_setdefault_ne _ _ _ _ h

/-- C10: `with_fees_and_nonce` never overwrites a caller-provided
field: every already-present key keeps its value, a key outside the
five fee/nonce keys is untouched, and each of the five keys, when
absent, is set to its computed default (chain id, the chain's current
transaction count, type 2, and the suggested max fee and tip). -/
theorem with_fees_and_nonce_frame (cfg : Cfg) (o : ChainOracle) (tx : Tx) :
    (∀ k v, dictGet k tx = some v → dictGet k (with_fees_and_nonce cfg o tx) = some v) ∧
    (∀ k, k ≠ "chainId" → k ≠ "nonce" → k ≠ "type" → k ≠ "maxFeePerGas" →
      k ≠ "maxPriorityFeePerGas" →
      dictGet k (with_fees_and_nonce cfg o tx) = dictGet k tx) ∧
    (dictGet "chainId" tx = none →
      dictGet "chainId" (with_fees_and_nonce cfg o tx) = some (.num cfg.chainId)) ∧
    (dictGet "nonce" tx = none →
      dictGet "nonce" (with_fees_and_nonce cfg o tx) = some (.num o.txCount)) ∧
    (dictGet "type" tx = none →
      dictGet "type" (with_fees_and_nonce cfg o tx) = some (.num 2)) ∧
    (dictGet "maxFeePerGas" tx = none →
      dictGet "maxFeePerGas" (with_fees_and_nonce cfg o tx) = some (.num (suggest_fees o).1)) ∧
    (dictGet "maxPriorityFeePerGas" tx = none →
      dictGet "maxPriorityFeePerGas" (with_fees_and_nonce cfg o tx) =
        some (.num (suggest_fees o).2)) := by
  refine ⟨?_, ?_, ?_, ?_, ?_, ?_, ?_⟩
  · intro k v h
    unfold with_fees_and_nonce
    exact dictGet_setdefault_of_some _ _ _ _ _ (dictGet_setdefault_of_some _ _ _ _ _
      (dictGet_setdefault_of_some _ _ _ _ _ (dictGet_setdefault_of_some _ _ _ _ _
        (dictGet_setdefault_of_some _ _ _ _ _ h))))
  · intro k h1 h2 h3 h4 h5
    exact wfan_dictGet_other cfg o tx k h1 h2 h3 h4 h5
  · intro h
    unfold with_fees_and_nonce
    exact dictGet_setdefault_of_some _ _ _ _ _ (dictGet_setdefault_of_some _ _ _ _ _
      (dictGet_setdefault_of_some _ _ _ _ _ (dictGet_setdefault_of_some _ _ _ _ _
        (dictGet_setdefault_none _ _ _ h))))
  · intro h
    unfold with_fees_and_nonce
    refine dictGet_setdefault_of_some _ _ _ _ _ (dictGet_setdefault_of_some _ _ _ _ _
      (dictGet_setdefault_of_some _ _ _ _ _ (dictGet_setdefault_none _ _ _ ?_)))
    rw [dictGet_setdefault_ne _ _ _ _ (by decide)]
    exact h
  · intro h
    unfold with_fees_and_nonce
    refine dictGet_setdefault_of_some _ _ _ _ _ (dictGet_setdefault_of_some _ _ _ _ _
      (dictGet_setdefault_none _ _ _ ?_))
    rw [dictGet_setdefault_ne _ _ _ _ (by decide), dictGet_setdefault_ne _ _ _ _ (by decide)]
    exact h
  · intro h
    unfold with_fees_and_nonce
    refine dictGet_setdefault_of_some _ _ _ _ _ (dictGet_setdefault_none _ _ _ ?_)
    rw [dictGet_setdefault_ne _ _ _ _ (by decide), dictGet_setdefault_ne _ _ _ _ (by decide),
      dictGet_setdefault_ne _ _ _ _ (by decide)]
    exact h
  · intro h
    unfold with_fees_and_nonce
    refine dictGet_setdefault_none _ _ _ ?_
    rw [dictGet_setdefault_ne _ _ _ _ (by decide), dictGet_setdefault_ne _ _ _ _ (by decide),
      dictGet_setdefault_ne _ _ _ _ (by decide), dictGet_setdefault_ne _ _ _ _ (by decide)]
    exact h

/-- A fixed test configuration: chain id 1, a 20-byte signer address,
no default recipient. -/
def cfgT : Cfg := ⟨1, List.replicate 20 1, none⟩

/-- A fixed test oracle: fee history with one base fee and one reward
sample, transaction count 7, a successful gas estimate and quotes, no
relay, every send returning the hash bytes [3, 3]. -/
def oT : ChainOracle :=
  ⟨some ⟨[100], some [[7]]⟩, 55, 7, some 21000, some [1000000, 2000000], some 2000000,
    false, true, fun _ => some [3, 3]⟩

theorem with_fees_and_nonce_frame_witness :
    dictGet "nonce" (with_fees_and_nonce cfgT oT [("nonce", TxVal.num 5)]) =
      some (TxVal.num 5) ∧
    dictGet "value" (with_fees_and_nonce cfgT oT [("value", TxVal.num 9)]) =
      some (TxVal.num 9) ∧
    dictGet "nonce" (with_fees_and_nonce cfgT oT []) = some (TxVal.num 7) := by
  refine ⟨?_, ?_, ?_⟩
  · exact (with_fees_and_nonce_frame cfgT oT _).1 "nonce" (TxVal.num 5) (by decide)
  · exact (with_fees_and_nonce_frame cfgT oT _).1 "value" (TxVal.num 9) (by decide)
  · exact (with_fees_and_nonce_frame cfgT oT []).2.2.2.1 (by decide)

/-- C9: gas estimation failure never aborts a swap.
`estimate_and_fill_gas` always returns: when the underlying estimate
raises, the transaction is returned unchanged (no gas field added);
when it succeeds, the `gas` field is set to the estimate scaled by
`12 // 10` only if no gas field was already present, and an
already-present gas field leaves the transaction unchanged.  In the
swap pipeline a built transaction is always handed on to signing and
submission. -/
theorem estimate_and_fill_gas_spec (cfg : Cfg) (o : ChainOracle) (now : Nat)
    (body : SwapV2Req) (tx : Tx) :
    (o.gasEstimate = none → estimate_and_fill_gas o tx = tx) ∧
    (∀ g, o.gasEstimate = some g → dictGet "gas" tx = none →
      dictGet "gas" (estimate_and_fill_gas o tx) = some (.num ((g * 12) / 10 : Nat))) ∧
    (∀ g v, o.gasEstimate = some g → dictGet "gas" tx = some v →
      estimate_and_fill_gas o tx = tx) ∧
    (∀ k, k ≠ "gas" → dictGet k (estimate_and_fill_gas o tx) = dictGet k tx) ∧
    (∀ tx2, v2_swap_tx cfg o now body = .ok tx2 →
      v2_swap cfg o now body = send_signed o tx2) := by
  refine ⟨?_, ?_, ?_, ?_, ?_⟩
  · intro h
    unfold estimate_and_fill_gas
    rw [h]
  · intro g hg habs
    unfold estimate_and_fill_gas
    rw [hg]
    exact dictGet_setdefault_none _ _ _ habs
  · intro g v hg hpres
    unfold estimate_and_fill_gas
    rw [hg]
    exact setdefault_of_some _ _ _ _ hpres
  · intro k hk
    exact eafg_dictGet_other o tx k hk
  · intro tx2 h
    unfold v2_swap
    rw [h]

theorem estimate_and_fill_gas_spec_witness :
    dictGet "gas" (estimate_and_fill_gas oT []) = some (TxVal.num 25200) ∧
    dictGet "data" (estimate_and_fill_gas oT [("data", TxVal.num 4)]) = some (TxVal.num 4) := by
  constructor
  · exact (estimate_and_fill_gas_spec cfgT oT 0
      ⟨0, some 0, [], none, none, 50, false⟩ []).2.1 21000 rfl rfl
  · exact ((estimate_and_fill_gas_spec cfgT oT 0
      ⟨0, some 0, [], none, none, 50, false⟩ [("data", TxVal.num 4)]).2.2.2.1 "data" (by decide)).trans rfl

/-- The test oracle seen by every build of a process whose chain
state never advances: the signer's transaction count stays at 7. -/
def chainStuck : Nat → ChainOracle := fun _ => oT

/-- C1 counterexample: there is no process-lifetime nonce counter.
Both the first and the second transaction built while the chain
reports transaction count 7 receive nonce 7; the second build does not
receive 8 as the claimed seed-plus-allocations counter would give, so
two builds from seed 7 yield the multiset 7, 7 rather than the
claimed duplicate-free set 7, 8. -/
theorem build_sequence_nonce_counterexample :
    build_sequence_nonce cfgT chainStuck 0 = some (TxVal.num 7) ∧
    build_sequence_nonce cfgT chainStuck 1 = some (TxVal.num 7) ∧
    build_sequence_nonce cfgT chainStuck 1 ≠ some (TxVal.num 8) := by
  refine ⟨rfl, rfl, ?_⟩
  intro h
  simp [build_sequence_nonce, chainStuck] at h
  exact absurd h (by decide)

/-- C1 amended: the nonce placed in the i-th built transaction is the
chain's reported transaction count for the signer at that build, with
no dependence on the number of prior builds of the process. -/
theorem build_sequence_nonce_amended (cfg : Cfg) (chain : Nat → ChainOracle) (i : Nat) :
    build_sequence_nonce cfg chain i = some (TxVal.num ((chain i).txCount)) := by
  unfold build_sequence_nonce with_fees_and_nonce
  refine dictGet_setdefault_of_some _ _ _ _ _ (dictGet_setdefault_of_some _ _ _ _ _
    (dictGet_setdefault_of_some _ _ _ _ _ (dictGet_setdefault_none _ _ _ ?_)))
  rw [dictGet_setdefault_ne _ _ _ _ (by decide)]
  rfl

/-- A test oracle whose fee history holds reward samples 1 and 2, an
odd sum whose exact mean is not an integer. -/
def oTip : ChainOracle :=
  ⟨some ⟨[100], some [[1], [2]]⟩, 77, 0, none, none, none, false, true, fun _ => none⟩

/-- C5 counterexample: with reward samples 1 and 2 the code returns
tip 1 (and max fee 100 + 2*1 = 102), but the exact mean of the samples
is 3/2, so the tip is not the mean of the samples as claimed. -/
theorem suggest_fees_counterexample :
    suggest_fees oTip = (102, 1) ∧
    ¬(((suggest_fees oTip).2 : ℚ) = (1 + 2) / 2) := by
  constructor
  · rfl
  · have h : (suggest_fees oTip).2 = 1 := rfl
    rw [h]
    norm_num

/-- C5 amended: the tip is the integer-truncated (floor) mean of the
available per-block priority-fee samples, or the fixed 1-gwei fallback
when no reward data is available, and the max fee is the latest base
fee plus twice the tip; when the historical fee query itself fails,
the node's single-value gas-price estimate is returned with the 1-gwei
tip instead of an error.  (The Python source divides with `/` on
floats and truncates with `int`; the embedding computes that division
exactly, which agrees for sums below 2^53.) -/
theorem suggest_fees_amended (o : ChainOracle) (hist : FeeHist) (base : Nat)
    (rs : List (List Nat)) (fs : List Nat) :
    (o.feeHistory = some hist → hist.baseFeePerGas.getLast? = some base →
      hist.reward = some rs → rs ≠ [] → listHeads rs = some fs →
      suggest_fees o = (base + (fs.sum / rs.length) * 2, fs.sum / rs.length) ∧
      fs.sum / rs.length = ⌊(fs.sum : ℚ) / (rs.length : ℚ)⌋₊) ∧
    (o.feeHistory = some hist → hist.baseFeePerGas.getLast? = some base →
      (hist.reward = none ∨ hist.reward = some []) →
      suggest_fees o = (base + gwei1 * 2, gwei1)) ∧
    (o.feeHistory = none → suggest_fees o = (o.gasPrice, gwei1)) := by
  refine ⟨?_, ?_, ?_⟩
  · intro h1 h2 h3 hne h5
    constructor
    · cases rs with
      | nil => exact absurd rfl hne
      | cons r rtl =>
        unfold suggest_fees
        rw [h1]
        dsimp only
        rw [h2]
        dsimp only
        rw [h3]
        simp only [Option.getD_some]
        rw [h5]
    · rw [Nat.floor_div_nat, Nat.floor_natCast]
  · intro h1 h2 h3
    unfold suggest_fees
    rw [h1]
    dsimp only
    rw [h2]
    dsimp only
    cases h3 with
    | inl h => rw [h]; rfl
    | inr h => rw [h]; rfl
  · intro h1
    unfold suggest_fees
    rw [h1]

theorem suggest_fees_amended_witness : suggest_fees oT = (114, 7) := by
  have h := (suggest_fees_amended oT ⟨[100], some [[7]]⟩ 100 [[7]] [7]).1 rfl rfl rfl
    (List.cons_ne_nil _ _) rfl
  exact h.1.trans rfl

/-- A test oracle with a private relay configured whose provider
constructor fails, and whose node responses tag the endpoint that was
actually asked to broadcast: the primary returns hash [1], the relay
hash [2]. -/
def oRelayDown : ChainOracle :=
  ⟨none, 0, 0, none, none, none, true, false,
    fun e => if e = Endpoint.primary then some [1] else some [2]⟩

/-- C8 counterexample: with a private relay configured but its
provider initialization failing, the submission silently targets the
public primary endpoint (the returned hash [1] is the primary's
response), contradicting the claim that a configured relay is always
the single target and that the transaction is never sent to the
public primary instead. -/
theorem send_signed_counterexample :
    oRelayDown.privateRpcConfigured = true ∧
    send_target oRelayDown = Endpoint.primary ∧
    send_signed oRelayDown [] = .ok [1] := by
  refine ⟨rfl, rfl, rfl⟩

/-- C8 amended: each submission targets exactly one endpoint, chosen
once: the relay when one is configured and its provider initializes,
otherwise the primary — in particular a relay provider-initialization
failure silently falls back to the primary endpoint.  A send failure
on the chosen endpoint is surfaced as an error, and the outcome
depends only on the chosen endpoint's response (no retry against the
other endpoint). -/
theorem send_signed_amended (o : ChainOracle) (tx : Tx) :
    (o.privateRpcConfigured = false → send_target o = .primary) ∧
    (o.privateRpcConfigured = true → o.relayInitOk = true → send_target o = .relay) ∧
    (o.privateRpcConfigured = true → o.relayInitOk = false → send_target o = .primary) ∧
    (o.sendResult (send_target o) = none → send_signed o tx = .error .sendFailed) ∧
    (∀ h, o.sendResult (send_target o) = some h → send_signed o tx = .ok h) ∧
    (∀ (o2 : ChainOracle) (tx2 : Tx), send_target o2 = send_target o →
      o2.sendResult (send_target o2) = o.sendResult (send_target o) →
      send_signed o2 tx2 = send_signed o tx) := by
  refine ⟨?_, ?_, ?_, ?_, ?_, ?_⟩
  · intro h
    unfold send_target
    rw [h]
    rfl
  · intro h1 h2
    unfold send_target
    rw [h1, h2]
    rfl
  · intro h1 h2
    unfold send_target
    rw [h1, h2]
    rfl
  · intro h
    unfold send_signed
    rw [h]
  · intro hsh h
    unfold send_signed
    rw [h]
  · intro o2 tx2 _h1 h2
    unfold send_signed
    rw [h2]

theorem send_signed_amended_witness :
    send_target oT = Endpoint.primary ∧ send_signed oT [] = .ok [3, 3] := by
  constructor
  · exact (send_signed_amended oT []).1 rfl
  · exact (send_signed_amended oT []).2.2.2.2.1 [3, 3] rfl

theorem rateGet_rateSet_self (k : String × Nat) (v : Nat) (l : RateCache) :
    rateGet k (rateSet k v l) = some v := by
  induction l with
  | nil => simp [rateSet, rateGet]
  | cons hd tl ih =>
    obtain ⟨k1, v1⟩ := hd
    by_cases h : k1 = k
    · simp [rateSet, rateGet, h]
    · simp [rateSet, rateGet, h, ih]

theorem rateGet_filter_ne (k : String × Nat) (w : Nat) (l : RateCache) (h : k.2 ≠ w) :
    rateGet k (l.filter (fun kv => kv.1.2 = w)) = none := by
  induction l with
  | nil => rfl
  | cons hd tl ih =>
    obtain ⟨k1, v1⟩ := hd
    by_cases hw : k1.2 = w
    · have hk : k1 ≠ k := by
        intro he
        exact h (he ▸ hw)
      simp [List.filter, hw, rateGet, hk, ih]
    · simp [List.filter, hw, ih]

theorem rateGet_filter_eq (k : String × Nat) (w : Nat) (l : RateCache) (h : k.2 = w) :
    rateGet k (l.filter (fun kv => kv.1.2 = w)) = rateGet k l := by
  induction l with
  | nil => rfl
  | cons hd tl ih =>
    obtain ⟨k1, v1⟩ := hd
    by_cases hk : k1 = k
    · subst hk
      simp [List.filter, h, rateGet, ih]
    · by_cases hw : k1.2 = w
      · simp [List.filter, hw, rateGet, hk, ih]
      · simp [List.filter, hw, rateGet, hk, ih]

/-- C6: semantics of the process-local admission controller.  Each
request computes the current window floor(now/windowSeconds); the
count stored under (identity, currentWindow) — 0 for a window not yet
seen, which is how the reset on a window change materializes — is
incremented, every entry of another window is dropped, and the request
is rejected exactly when the incremented count exceeds the limit.
With limit 3 and a 60-second window, requests at times 0, 10, 20, 30
and 60 give: three accepted, the fourth rejected, and the request in
the next window accepted again with the counter restarted at 1. -/
theorem rate_limit_behavior (limit windowSecs : Nat) (cache : RateCache)
    (ident : String) (now : Nat) :
    ((rate_limit_step limit windowSecs cache ident now).2 = true ↔
      (rateGet (ident, now / windowSecs) cache).getD 0 + 1 > limit) ∧
    (rateGet (ident, now / windowSecs) (rate_limit_step limit windowSecs cache ident now).1 =
      some ((rateGet (ident, now / windowSecs) cache).getD 0 + 1)) ∧
    (∀ k : String × Nat, k.2 ≠ now / windowSecs →
      rateGet k (rate_limit_step limit windowSecs cache ident now).1 = none) ∧
    ((rate_limit_run 3 60 [] ident [0, 10, 20, 30, 60]).2 =
      [false, false, false, true, false]) ∧
    (rateGet (ident, 1) (rate_limit_run 3 60 [] ident [0, 10, 20, 30, 60]).1 = some 1) := by
  refine ⟨?_, ?_, ?_, ?_, ?_⟩
  · unfold rate_limit_step
    simp
  · unfold rate_limit_step
    dsimp only
    rw [rateGet_filter_eq _ _ _ rfl, rateGet_rateSet_self]
  · intro k hk
    unfold rate_limit_step
    dsimp only
    exact rateGet_filter_ne _ _ _ hk
  · simp [rate_limit_run, rate_limit_step, rateGet, rateSet]
  · simp [rate_limit_run, rate_limit_step, rateGet, rateSet]

theorem rate_limit_behavior_witness :
    (rate_limit_step 3 60 [] "alice" 0).2 = false ∧
    rateGet ("alice", 0) (rate_limit_step 3 60 [] "alice" 0).1 = some 1 ∧
    rateGet ("alice", 0) (rate_limit_step 3 60 [] "alice" 70).1 = none := by
  refine ⟨?_, ?_, ?_⟩
  · have h := (rate_limit_behavior 3 60 [] "alice" 0).1
    rcases hb : (rate_limit_step 3 60 [] "alice" 0).2 with _ | _
    · rfl
    · have := h.mp hb
      simp [rateGet] at this
  · exact ((rate_limit_behavior 3 60 [] "alice" 0).2.1).trans (by rfl)
  · exact (rate_limit_behavior 3 60 [] "alice" 70).2.2.1 ("alice", 0) (by norm_num)

theorem fdiv_10000_floor (a : Int) : a.fdiv 10000 = ⌊(a : ℚ) / 10000⌋ := by
  rw [Int.fdiv_eq_ediv a (by norm_num)]
  have h := Rat.floor_intCast_div_natCast a 10000
  norm_num at h
  exact h.symm

theorem dictGet_data_filled (cfg : Cfg) (o : ChainOracle) (fromV dataV : TxVal) :
    dictGet "data" (estimate_and_fill_gas o (with_fees_and_nonce cfg o
      [("from", fromV), ("data", dataV)])) = some dataV := by
  rw [eafg_dictGet_other _ _ _ (by decide),
    wfan_dictGet_other _ _ _ _ (by decide) (by decide) (by decide) (by decide) (by decide)]
  rfl

/-- C2: when the caller supplies no explicit minimum output and the
slippage tolerance lies in [0, 10000] basis points, the minimum output
placed in the built swap calldata — for the v2 route using the final
entry of the getAmountsOut quote, for the v3 single hop using the
quoter's output — is exactly the rational floor of
quotedOut * (10000 - toleranceBps) / 10000, computed in exact integer
arithmetic. -/
theorem slippage_min_out (cfg : Cfg) (o : ChainOracle) (now : Nat)
    (b2 : SwapV2Req) (b3 : SwapV3Req) (amts : List Nat) (q2 q3 : Nat) (tx2 tx3 : Tx) :
    (b2.amount_out_min = none → 0 ≤ b2.slippage_bps → b2.slippage_bps ≤ 10000 →
      o.v2Amounts = some amts → amts.getLast? = some q2 →
      v2_swap_tx cfg o now b2 = .ok tx2 →
      tx_amount_out_min tx2 =
        some ⌊((q2 : ℚ) * (10000 - (b2.slippage_bps : ℚ))) / 10000⌋) ∧
    (b3.amount_out_min = none → 0 ≤ b3.slippage_bps → b3.slippage_bps ≤ 10000 →
      o.v3QuoteSingle = some q3 →
      v3_swap_tx cfg o now b3 = .ok tx3 →
      tx_amount_out_min tx3 =
        some ⌊((q3 : ℚ) * (10000 - (b3.slippage_bps : ℚ))) / 10000⌋) := by
  constructor
  · intro hmin _hb1 _hb2 hv2 hlast htx
    unfold v2_swap_tx at htx
    cases hta : addr_bytes_req (fallback_addr b2.toField cfg) with
    | error e => rw [hta] at htx; simp at htx
    | ok toA =>
      rw [hta] at htx
      dsimp only at htx
      cases hpb : path_bytes_req b2.path with
      | error e => rw [hpb] at htx; simp at htx
      | ok pathB =>
        rw [hpb] at htx
        dsimp only at htx
        have haom : v2_amount_out_min o b2 =
            .ok (((q2 : Int) * (10000 - b2.slippage_bps)).fdiv 10000) := by
          unfold v2_amount_out_min
          rw [hmin]
          dsimp only
          rw [hv2]
          dsimp only
          rw [hlast]
        rw [haom] at htx
        dsimp only at htx
        rw [Except.ok.injEq] at htx
        subst htx
        unfold tx_amount_out_min
        rw [dictGet_data_filled]
        dsimp only
        rw [fdiv_10000_floor]
        congr 1
        push_cast
        ring
  · intro hmin _hb1 _hb2 hq htx
    unfold v3_swap_tx at htx
    cases hti : addr_bytes_req b3.token_in with
    | error e => rw [hti] at htx; simp at htx
    | ok tin =>
      rw [hti] at htx
      dsimp only at htx
      cases hto : addr_bytes_req b3.token_out with
      | error e => rw [hto] at htx; simp at htx
      | ok tout =>
        rw [hto] at htx
        dsimp only at htx
        have haom : v3_amount_out_min o b3 =
            .ok (((q3 : Int) * (10000 - b3.slippage_bps)).fdiv 10000) := by
          unfold v3_amount_out_min
          rw [hmin]
          dsimp only
          rw [hq]
        rw [haom] at htx
        dsimp only at htx
        cases hrc : addr_bytes_req (fallback_addr b3.recipient cfg) with
        | error e => rw [hrc] at htx; simp at htx
        | ok recA =>
          rw [hrc] at htx
          dsimp only at htx
          rw [Except.ok.injEq] at htx
          subst htx
          unfold tx_amount_out_min
          rw [dictGet_data_filled]
          dsimp only
          rw [fdiv_10000_floor]
          congr 1
          push_cast
          ring

/-- A valid 20-byte token address used by concrete test routes. -/
def addrA : List Nat := List.replicate 20 170

/-- A second valid 20-byte token address. -/
def addrB : List Nat := List.replicate 20 187

/-- A test oracle whose v2 route quote ends at 1,000,000 output
units. -/
def oQ : ChainOracle :=
  ⟨some ⟨[100], some [[7]]⟩, 55, 7, some 21000, some [1000000], some 1000000,
    false, true, fun _ => some [3, 3]⟩

theorem slippage_min_out_witness :
    tx_amount_out_min (estimate_and_fill_gas oQ (with_fees_and_nonce cfgT oQ
      [("from", TxVal.addrV cfgT.acctAddr),
       ("data", TxVal.call (CallDataCore.v2swap false 1000
         (((1000000 : Int) * (10000 - 50)).fdiv 10000)
         [addrA, addrB] cfgT.acctAddr 1300))])) = some 995000 ∧
    (⌊((1000000 : ℚ) * (10000 - (50 : ℚ))) / 10000⌋ = 995000) := by
  constructor
  · have h := (slippage_min_out cfgT oQ 1000
      ⟨1000, none, [AddrInput.valid addrA, AddrInput.valid addrB], none, some 1300, 50, false⟩
      ⟨AddrInput.valid addrA, AddrInput.valid addrB, 3000, 0, some 0, none, none, 0, 50⟩
      [1000000] 1000000 0
      (estimate_and_fill_gas oQ (with_fees_and_nonce cfgT oQ
        [("from", TxVal.addrV cfgT.acctAddr),
         ("data", TxVal.call (CallDataCore.v2swap false 1000
           (((1000000 : Int) * (10000 - 50)).fdiv 10000)
           [addrA, addrB] cfgT.acctAddr 1300))])) []).1
      rfl (by norm_num) (by norm_num) rfl rfl rfl
    rw [h]
    norm_num
  · norm_num

/-- C7 counterexample: a swap intent with deadline 5, already long
past at build time 1000, with amountIn 0 and a route of length 0, is
built and submitted successfully — the transaction builders perform no
intent validation, so no IntentValidationError (nor any other error)
is raised. -/
theorem v2_swap_no_validation_counterexample :
    ((5 : Int) < 1000) ∧
    v2_swap cfgT oT 1000 ⟨0, some 0, [], none, some 5, 50, false⟩ = .ok [3, 3] := by
  exact ⟨by norm_num, rfl⟩

/-- C7 amended: the transaction builders validate nothing about the
intent.  Whenever the chain calls succeed, the built transaction
carries the caller's deadline and input amount verbatim — including a
deadline already in the past and an amountIn of zero — and is then
signed and submitted; route-shape violations are not checked by the
v2 builder at all. -/
theorem v2v3_swap_no_validation (cfg : Cfg) (o : ChainOracle) (now : Nat)
    (b2 : SwapV2Req) (b3 : SwapV3Req) (tx2 tx3 : Tx) (d : Int) :
    (b2.deadline = some d → d ≠ 0 → v2_swap_tx cfg o now b2 = .ok tx2 →
      tx_deadline tx2 = some d ∧ tx_amount_in tx2 = some b2.amount_in) ∧
    (b3.deadline = some d → d ≠ 0 → v3_swap_tx cfg o now b3 = .ok tx3 →
      tx_deadline tx3 = some d ∧ tx_amount_in tx3 = some b3.amount_in) ∧
    (∀ hsh, v2_swap_tx cfg o now b2 = .ok tx2 → o.sendResult (send_target o) = some hsh →
      v2_swap cfg o now b2 = .ok hsh) ∧
    (∀ hsh, v3_swap_tx cfg o now b3 = .ok tx3 → o.sendResult (send_target o) = some hsh →
      v3_swap cfg o now b3 = .ok hsh) := by
  refine ⟨?_, ?_, ?_, ?_⟩
  · intro hd hd0 htx
    unfold v2_swap_tx at htx
    cases hta : addr_bytes_req (fallback_addr b2.toField cfg) with
    | error e => rw [hta] at htx; simp at htx
    | ok toA =>
      rw [hta] at htx
      dsimp only at htx
      cases hpb : path_bytes_req b2.path with
      | error e => rw [hpb] at htx; simp at htx
      | ok pathB =>
        rw [hpb] at htx
        dsimp only at htx
        cases haom : v2_amount_out_min o b2 with
        | error e => rw [haom] at htx; simp at htx
        | ok aom =>
          rw [haom] at htx
          dsimp only at htx
          rw [Except.ok.injEq] at htx
          subst htx
          constructor
          · unfold tx_deadline
            rw [dictGet_data_filled]
            dsimp only
            rw [hd]
            unfold deadline_or_default
            dsimp only
            rw [if_neg hd0]
          · unfold tx_amount_in
            rw [dictGet_data_filled]
  · intro hd hd0 htx
    unfold v3_swap_tx at htx
    cases hti : addr_bytes_req b3.token_in with
    | error e => rw [hti] at htx; simp at htx
    | ok tin =>
      rw [hti] at htx
      dsimp only at htx
      cases hto : addr_bytes_req b3.token_out with
      | error e => rw [hto] at htx; simp at htx
      | ok tout =>
        rw [hto] at htx
        dsimp only at htx
        cases haom : v3_amount_out_min o b3 with
        | error e => rw [haom] at htx; simp at htx
        | ok aom =>
          rw [haom] at htx
          dsimp only at htx
          cases hrc : addr_bytes_req (fallback_addr b3.recipient cfg) with
          | error e => rw [hrc] at htx; simp at htx
          | ok recA =>
            rw [hrc] at htx
            dsimp only at htx
            rw [Except.ok.injEq] at htx
            subst htx
            constructor
            · unfold tx_deadline
              rw [dictGet_data_filled]
              dsimp only
              rw [hd]
              unfold deadline_or_default
              dsimp only
              rw [if_neg hd0]
            · unfold tx_amount_in
              rw [dictGet_data_filled]
  · intro hsh htx hsend
    unfold v2_swap
    rw [htx]
    unfold send_signed
    rw [hsend]
  · intro hsh htx hsend
    unfold v3_swap
    rw [htx]
    unfold send_signed
    rw [hsend]

theorem v2v3_swap_no_validation_witness :
    tx_deadline (estimate_and_fill_gas oT (with_fees_and_nonce cfgT oT
      [("from", TxVal.addrV cfgT.acctAddr),
       ("data", TxVal.call (CallDataCore.v2swap false 0 0 [] cfgT.acctAddr 5))])) =
      some 5 ∧
    v2_swap cfgT oT 1000 ⟨0, some 0, [], none, some 5, 50, false⟩ = .ok [3, 3] := by
  constructor
  · exact ((v2v3_swap_no_validation cfgT oT 1000
      ⟨0, some 0, [], none, some 5, 50, false⟩
      ⟨AddrInput.valid addrA, AddrInput.valid addrB, 3000, 0, some 0, none, none, 0, 50⟩
      (estimate_and_fill_gas oT (with_fees_and_nonce cfgT oT
        [("from", TxVal.addrV cfgT.acctAddr),
         ("data", TxVal.call (CallDataCore.v2swap false 0 0 [] cfgT.acctAddr 5))])) [] 5).1
      rfl (by norm_num) rfl).1
  · exact (v2v3_swap_no_validation cfgT oT 1000
      ⟨0, some 0, [], none, some 5, 50, false⟩
      ⟨AddrInput.valid addrA, AddrInput.valid addrB, 3000, 0, some 0, none, none, 0, 50⟩
      (estimate_and_fill_gas oT (with_fees_and_nonce cfgT oT
        [("from", TxVal.addrV cfgT.acctAddr),
         ("data", TxVal.call (CallDataCore.v2swap false 0 0 [] cfgT.acctAddr 5))])) [] 5).2.2.1
      [3, 3] rfl rfl

theorem spec_path_layout_length (fs : List Int) : ∀ (bs : List (List Nat)),
    bs.length = fs.length + 1 → (∀ b ∈ bs, b.length = 20) →
    (spec_path_layout bs fs).length = 23 * fs.length + 20 := by
  induction fs with
  | nil =>
    intro bs hlen h20
    match bs, hlen with
    | [b], _ =>
      have := h20 b (List.mem_singleton.mpr rfl)
      simpa [spec_path_layout] using this
  | cons f ft ih =>
    intro bs hlen h20
    match bs, hlen with
    | b :: bt, hlen =>
      have hbt : bt.length = ft.length + 1 := by simpa using hlen
      match bt, hbt with
      | b2 :: bt2, hbt =>
        have hb := h20 b (List.mem_cons_self _ _)
        have ihh := ih (b2 :: bt2) hbt (fun x hx => h20 x (List.mem_cons_of_mem _ hx))
        simp only [spec_path_layout, List.length_append, ihh, hb, List.length_cons,
          List.length_nil]
        ring

theorem beBytes3_inj (f g : Int) (hf : 0 ≤ f ∧ f < 16777216) (hg : 0 ≤ g ∧ g < 16777216)
    (h1 : f.toNat / 65536 = g.toNat / 65536) (h2 : f.toNat / 256 % 256 = g.toNat / 256 % 256)
    (h3 : f.toNat % 256 = g.toNat % 256) : f = g := by
  omega

theorem spec_path_layout_inj (fs1 : List Int) : ∀ (bs1 : List (List Nat))
    (fs2 : List Int) (bs2 : List (List Nat)),
    bs1.length = fs1.length + 1 → bs2.length = fs2.length + 1 →
    (∀ b ∈ bs1, b.length = 20) → (∀ b ∈ bs2, b.length = 20) →
    (∀ f ∈ fs1, 0 ≤ f ∧ f < 16777216) → (∀ f ∈ fs2, 0 ≤ f ∧ f < 16777216) →
    spec_path_layout bs1 fs1 = spec_path_layout bs2 fs2 →
    bs1 = bs2 ∧ fs1 = fs2 := by
  induction fs1 with
  | nil =>
    intro bs1 fs2 bs2 hl1 hl2 h20a h20b hfa hfb heq
    have hlen2 : fs2.length = 0 := by
      have e1 := spec_path_layout_length [] bs1 hl1 h20a
      have e2 := spec_path_layout_length fs2 bs2 hl2 h20b
      rw [heq, e2] at e1
      simp only [List.length_nil] at e1
      omega
    match fs2, hlen2 with
    | [], _ =>
      match bs1, hl1 with
      | [b1], _ =>
        match bs2, hl2 with
        | [b2], _ =>
          refine ⟨?_, rfl⟩
          simpa [spec_path_layout] using heq
  | cons f1 ft1 ih =>
    intro bs1 fs2 bs2 hl1 hl2 h20a h20b hfa hfb heq
    have hlen2 : fs2.length = ft1.length + 1 := by
      have e1 := spec_path_layout_length (f1 :: ft1) bs1 hl1 h20a
      have e2 := spec_path_layout_length fs2 bs2 hl2 h20b
      rw [heq, e2] at e1
      simp only [List.length_cons] at e1
      omega
    match fs2, hlen2 with
    | f2 :: ft2, hlen2 =>
      match bs1, hl1 with
      | b1 :: bt1, hl1 =>
        match bs2, hl2 with
        | b2 :: bt2, hl2 =>
          have hbt1 : bt1.length = ft1.length + 1 := by simpa using hl1
          have hbt2 : bt2.length = ft2.length + 1 := by simpa using hl2
          match bt1, hbt1 with
          | b12 :: bt12, hbt1 =>
            match bt2, hbt2 with
            | b22 :: bt22, hbt2 =>
              simp only [spec_path_layout] at heq
              have hlb : b1.length = b2.length := by
                rw [h20a b1 (List.mem_cons_self _ _), h20b b2 (List.mem_cons_self _ _)]
              have hlb23 : (b1 ++ [f1.toNat / 65536, f1.toNat / 256 % 256, f1.toNat % 256]).length =
                  (b2 ++ [f2.toNat / 65536, f2.toNat / 256 % 256, f2.toNat % 256]).length := by
                simp [hlb]
              obtain ⟨hpre, heq3⟩ := List.append_inj heq hlb23
              obtain ⟨hbeq, hfeq⟩ := List.append_inj hpre hlb
              have hf1r := hfa f1 (List.mem_cons_self _ _)
              have hf2r := hfb f2 (List.mem_cons_self _ _)
              simp only [List.cons.injEq, and_true] at hfeq
              obtain ⟨e1, e2, e3⟩ := hfeq
              have hfe : f1 = f2 := beBytes3_inj f1 f2 hf1r hf2r e1 e2 e3
              have ihh := ih (b12 :: bt12) ft2 (b22 :: bt22) hbt1 hbt2
                (fun x hx => h20a x (List.mem_cons_of_mem _ hx))
                (fun x hx => h20b x (List.mem_cons_of_mem _ hx))
                (fun x hx => hfa x (List.mem_cons_of_mem _ hx))
                (fun x hx => hfb x (List.mem_cons_of_mem _ hx))
                heq3
              exact ⟨by rw [hbeq, ihh.1], by rw [hfe, ihh.2]⟩

theorem encode_path_core_ok (fs : List Int) : ∀ (bs : List (List Nat)),
    bs.length = fs.length + 1 →
    (∀ f ∈ fs, 0 ≤ f ∧ f < 16777216) →
    encode_path_core (bs.map AddrInput.valid) fs = .ok (spec_path_layout bs fs) := by
  induction fs with
  | nil =>
    intro bs hlen _
    match bs, hlen with
    | [b], _ => rfl
  | cons f ft ih =>
    intro bs hlen hf
    match bs, hlen with
    | b :: bt, hlen =>
      have hbt : bt.length = ft.length + 1 := by simpa using hlen
      match bt, hbt with
      | b2 :: bt2, hbt =>
        have ihh := ih (b2 :: bt2) hbt (fun x hx => hf x (List.mem_cons_of_mem _ hx))
        have hfr := hf f (List.mem_cons_self _ _)
        simp only [List.map_cons] at ihh ⊢
        unfold encode_path_core
        rw [ihh]
        unfold to_bytes_3_be
        rw [if_pos hfr]
        simp [checksum_bytes, spec_path_layout]

/-- C3: for a route of at least two validated token addresses (each
carrying 20 raw bytes) and exactly one fee tier per hop, each tier a
3-byte value, the encoder succeeds and returns exactly the prescribed
interleaved layout — each token's 20 raw bytes followed by its fee
tier as a 3-byte big-endian integer, ending with the final token's
bytes; the output length is 20*tokens + 3*(tokens-1) bytes, and
distinct well-formed routes never encode to the same bytes, so the
tokens and tiers are exactly recoverable from the output. -/
theorem encode_v3_path_roundtrip (tokens : List AddrInput) (fees : List Int)
    (bs : List (List Nat)) :
    2 ≤ tokens.length →
    fees.length = tokens.length - 1 →
    tokens = bs.map AddrInput.valid →
    (∀ b ∈ bs, b.length = 20) →
    (∀ f ∈ fees, 0 ≤ f ∧ f < 16777216) →
    encode_v3_path tokens fees = .ok (spec_path_layout bs fees) ∧
    (spec_path_layout bs fees).length = 20 * tokens.length + 3 * (tokens.length - 1) ∧
    (∀ (tokens2 : List AddrInput) (fees2 : List Int) (bs2 : List (List Nat)),
      2 ≤ tokens2.length → fees2.length = tokens2.length - 1 →
      tokens2 = bs2.map AddrInput.valid → (∀ b ∈ bs2, b.length = 20) →
      (∀ f ∈ fees2, 0 ≤ f ∧ f < 16777216) →
      encode_v3_path tokens2 fees2 = encode_v3_path tokens fees →
      tokens2 = tokens ∧ fees2 = fees) := by
  intro h2 hlen hbs h20 hfr
  have hbslen : bs.length = tokens.length := by
    rw [hbs, List.length_map]
  have hlen2 : bs.length = fees.length + 1 := by omega
  have hguard : (fees.length : Int) = (tokens.length : Int) - 1 := by
    omega
  have hok : encode_v3_path tokens fees = .ok (spec_path_layout bs fees) := by
    unfold encode_v3_path
    rw [if_pos hguard, hbs]
    exact encode_path_core_ok fees bs hlen2 hfr
  refine ⟨hok, ?_, ?_⟩
  · rw [spec_path_layout_length fees bs hlen2 h20]
    omega
  · intro tokens2 fees2 bs2 h2b hlenb hbsb h20b hfrb heq
    have hbslenb : bs2.length = tokens2.length := by
      rw [hbsb, List.length_map]
    have hlen2b : bs2.length = fees2.length + 1 := by omega
    have hguardb : (fees2.length : Int) = (tokens2.length : Int) - 1 := by
      omega
    have hokb : encode_v3_path tokens2 fees2 = .ok (spec_path_layout bs2 fees2) := by
      unfold encode_v3_path
      rw [if_pos hguardb, hbsb]
      exact encode_path_core_ok fees2 bs2 hlen2b hfrb
    rw [hokb, hok, Except.ok.injEq] at heq
    obtain ⟨hb, hf⟩ := spec_path_layout_inj fees2 bs2 fees bs hlen2b hlen2 h20b h20 hfrb hfr heq
    refine ⟨?_, hf⟩
    rw [hbsb, hbs, hb]

theorem encode_v3_path_roundtrip_witness :
    encode_v3_path [AddrInput.valid addrA, AddrInput.valid addrB] [3000] =
      .ok (spec_path_layout [addrA, addrB] [3000]) ∧
    (spec_path_layout [addrA, addrB] [3000]).length = 43 := by
  have h := encode_v3_path_roundtrip [AddrInput.valid addrA, AddrInput.valid addrB] [3000]
    [addrA, addrB] (by norm_num) (by norm_num) rfl (by decide) (by decide)
  refine ⟨h.1, ?_⟩
  rw [h.2.1]
  norm_num

theorem all_valid_eq_map (ts : List AddrInput) (h : AddrInput.invalid ∉ ts) :
    ∃ bs : List (List Nat), ts = bs.map AddrInput.valid := by
  induction ts with
  | nil => exact ⟨[], rfl⟩
  | cons t tl ih =>
    have h1 : AddrInput.invalid ∉ tl := fun hc => h (List.mem_cons_of_mem _ hc)
    obtain ⟨bs, hbs⟩ := ih h1
    cases t with
    | valid b => exact ⟨b :: bs, by rw [List.map_cons, hbs]⟩
    | invalid => exact absurd (List.mem_cons_self _ _) h

theorem encode_path_core_error_of (fs : List Int) : ∀ (ts : List AddrInput),
    ts.length = fs.length + 1 →
    (AddrInput.invalid ∈ ts ∨ ∃ f ∈ fs, f < 0 ∨ 16777216 ≤ f) →
    ∃ e, encode_path_core ts fs = .error e := by
  induction fs with
  | nil =>
    intro ts hlen hcond
    match ts, hlen with
    | [t], _ =>
      rcases hcond with h | ⟨f, hf, _⟩
      · have ht : AddrInput.invalid = t := by simpa using h
        rw [← ht]
        exact ⟨.invalidAddress, rfl⟩
      · simp at hf
  | cons f ft ih =>
    intro ts hlen hcond
    match ts, hlen with
    | t :: ts2, hlen =>
      have hts2 : ts2.length = ft.length + 1 := by simpa using hlen
      match ts2, hts2 with
      | t2 :: ts3, hts2 =>
        cases t with
        | invalid =>
          refine ⟨.invalidAddress, ?_⟩
          unfold encode_path_core
          simp [checksum_bytes]
        | valid b =>
          by_cases hfr : 0 ≤ f ∧ f < 16777216
          · have hsub : AddrInput.invalid ∈ (t2 :: ts3) ∨ ∃ g ∈ ft, g < 0 ∨ 16777216 ≤ g := by
              rcases hcond with h | ⟨g, hg, hr⟩
              · rcases List.mem_cons.mp h with h1 | h1
                · simp at h1
                · exact Or.inl h1
              · rcases List.mem_cons.mp hg with h1 | h1
                · subst h1
                  rcases hr with hr | hr
                  · exact absurd hr (by omega)
                  · exact absurd hr (by omega)
                · exact Or.inr ⟨g, h1, hr⟩
            obtain ⟨e, he⟩ := ih (t2 :: ts3) hts2 hsub
            refine ⟨e, ?_⟩
            unfold encode_path_core
            simp only [checksum_bytes]
            unfold to_bytes_3_be
            rw [if_pos hfr, he]
          · refine ⟨.feeOverflow, ?_⟩
            unfold encode_path_core
            simp only [checksum_bytes]
            unfold to_bytes_3_be
            rw [if_neg hfr]

/-- C4 amended: the path encoder fails exactly when the fee-tier count
differs from the token count minus one (computed over ℤ, so an empty
token list always fails), or some token address fails canonical-form
validation, or some fee tier falls outside [0, 2^24) (an
OverflowError of the 3-byte conversion).  A single-token route with an
empty fee list is not rejected: the token count below 2 is not checked
by itself. -/
theorem encode_v3_path_error_iff (tokens : List AddrInput) (fees : List Int) :
    (∃ e, encode_v3_path tokens fees = .error e) ↔
      ((fees.length : Int) ≠ (tokens.length : Int) - 1 ∨
        AddrInput.invalid ∈ tokens ∨
        ∃ f ∈ fees, f < 0 ∨ 16777216 ≤ f) := by
  by_cases hg : (fees.length : Int) = (tokens.length : Int) - 1
  · have hlen : tokens.length = fees.length + 1 := by omega
    constructor
    · intro he
      obtain ⟨e, he⟩ := he
      unfold encode_v3_path at he
      rw [if_pos hg] at he
      by_contra hcon
      push_neg at hcon
      obtain ⟨_, hc2, hc3⟩ := hcon
      obtain ⟨bs, hbs⟩ := all_valid_eq_map tokens hc2
      have hbl : bs.length = fees.length + 1 := by
        have hlm := congrArg List.length hbs
        simp only [List.length_map] at hlm
        omega
      have hfr : ∀ f ∈ fees, 0 ≤ f ∧ f < 16777216 := fun f hf => hc3 f hf
      have hok := encode_path_core_ok fees bs hbl hfr
      rw [hbs, hok] at he
      simp at he
    · intro h
      rcases h with h | h
      · exact absurd hg h
      · unfold encode_v3_path
        rw [if_pos hg]
        exact encode_path_core_error_of fees tokens hlen h
  · constructor
    · intro _
      exact Or.inl hg
    · intro _
      unfold encode_v3_path
      rw [if_neg hg]
      exact ⟨.lengthMismatch, rfl⟩

/-- C4 counterexample: a route with a single validated token and an
empty fee list passes the only validation in the encoder (the
fee-count check, since 0 = 1 - 1) and returns that token's 20 bytes,
so the encoder does not fail when the token count is less than 2 as
the claim requires. -/
theorem encode_v3_path_single_token_counterexample :
    encode_v3_path [AddrInput.valid addrA] [] = .ok addrA := rfl

theorem encode_v3_path_error_iff_witness :
    ∃ e, encode_v3_path [AddrInput.valid addrA, AddrInput.invalid] [3000] = .error e := by
  exact (encode_v3_path_error_iff [AddrInput.valid addrA, AddrInput.invalid] [3000]).mpr
    (Or.inr (Or.inl (by decide)))
